import Mathlib

set_option maxRecDepth 16384

/-!
# Verification of the `duration_utils` ISO-8601 duration codec

Shallow embedding of `src/lib.rs` and `src/direct_serde.rs`:

* `Duration` models `std::time::Duration`: a non-negative span with whole
  seconds (a `u64` in Rust, here `ℕ`) and sub-second nanoseconds
  (`< 10^9` in every value Rust constructs).
* The `from_hms*` constructors mirror the Rust functions; `u32` arithmetic
  that can overflow is modelled with an explicit `% 2^32` (release-mode
  wrapping semantics).
* The formatter `to_iso8601` and the parser `from_iso8601` compute with
  `f64`.  `f64` is embedded as the type `F64`: IEEE-754 binary64 values
  represented exactly (finite values are dyadic rationals `± m * 2^e`,
  plus infinities and NaN), with every arithmetic operation performing
  the exact rational operation followed by correct rounding to 53 bits
  (round to nearest, ties to even), as IEEE-754 prescribes.  `parse::<f64>`
  and `Display` for `f64` are likewise correctly rounded: parsing rounds
  the exact decimal value (overflowing to infinity), and `Display` prints
  the shortest decimal that parses back to the same value, laid out
  without an exponent, as Rust's formatter does.  The one deliberate
  simplification is the sign of zero: `-0.0` is collapsed into `+0.0`,
  which is sound here because the parser's final total is never `-0.0`
  (the last addend `secs_in_f` is non-negative, and `-0.0 + 0.0 = +0.0`)
  and the formatter only ever displays a non-zero remainder.
* The regex `([-+]?)P(?:([-+]?[0-9]+)D)?(T(?:([-+]?[0-9]+)H)?(?:([-+]?[0-9]+)M)?
  (?:([-+]?[0-9]+)(?:[.,]([0-9]{0,9}))?S)?)?` is embedded as a deterministic
  scanner over `List Char`.  The Rust `regex` crate uses leftmost-first
  (Perl-like) semantics with greedy optional groups; on this pattern every
  group's participation is decided locally (a group body is followed by a
  literal that cannot extend a digit run), so the greedy first match is
  computed by trying each start position from the left and taking each
  optional group exactly when its body matches there.
* Rust panics (`unwrap` on a failed `parse`, and the panics of
  `Duration::from_secs_f64` on NaN/negative/out-of-range input) are
  modelled by the explicit outcome `ParseResult.panic`.
-/

/-- Models `std::time::Duration`: `secs` is the `u64` field, `nanos` the
sub-second nanoseconds (`< 10^9` for every value Rust builds). -/
structure Duration where
  secs : ℕ
  nanos : ℕ
deriving DecidableEq

/-- `from_hms_opt` (src/lib.rs:13).  `VALID_SECS = 0..60` is checked for `s`
and `m`; the `u32` sum `h * 3600 + m * 60 + s` wraps at `2^32` before the
`as u64` cast. -/
def from_hms_opt (h m s : ℕ) : Option Duration :=
  if s < 60 ∧ m < 60 then
    some ⟨(h * 3600 + m * 60 + s) % 2 ^ 32, 0⟩
  else
    none

/-- `from_hms` (src/lib.rs:38) is `from_hms_opt(h, m, s).unwrap()`; the
panic on `None` is modelled by keeping the `Option`. -/
def from_hms (h m s : ℕ) : Option Duration :=
  from_hms_opt h m s

/-- `from_hms_milli_opt` (src/lib.rs:47): additionally requires
`milli ∈ 0..1000`; nanoseconds are `milli * 1000_000` (no `u32` overflow is
possible under the bound). -/
def from_hms_milli_opt (h m s milli : ℕ) : Option Duration :=
  if s < 60 ∧ m < 60 ∧ milli < 1000 then
    some ⟨(h * 3600 + m * 60 + s) % 2 ^ 32, milli * 1000000⟩
  else
    none

/-- `from_hms_micro_opt` (src/lib.rs:84): requires `micro ∈ 0..1000_000`;
nanoseconds are `micro * 1000`. -/
def from_hms_micro_opt (h m s micro : ℕ) : Option Duration :=
  if s < 60 ∧ m < 60 ∧ micro < 1000000 then
    some ⟨(h * 3600 + m * 60 + s) % 2 ^ 32, micro * 1000⟩
  else
    none

/-- `from_hms_nano_opt` (src/lib.rs:118): requires `nano ∈ 0..1000_000_000`. -/
def from_hms_nano_opt (h m s nano : ℕ) : Option Duration :=
  if s < 60 ∧ m < 60 ∧ nano < 1000000000 then
    some ⟨(h * 3600 + m * 60 + s) % 2 ^ 32, nano⟩
  else
    none

/-- Decimal digits of `n`, most significant first, via structural recursion
on a fuel argument (`fuel ≥ n` suffices since `n / 10 < n` for `n ≠ 0`). -/
def natCharsAux : ℕ → ℕ → List Char
  | 0, _ => []
  | fuel + 1, n =>
    if n = 0 then [] else natCharsAux fuel (n / 10) ++ [Nat.digitChar (n % 10)]

/-- The decimal rendering of a natural number, as Rust's integer
`to_string` produces it (no sign, no leading zeros, `"0"` for zero). -/
def natChars (n : ℕ) : List Char :=
  if n = 0 then ['0'] else natCharsAux n n

/-- Zero-pad a digit list on the left to 9 places: the nanosecond field as
a fixed-point fraction of a second. -/
def padNine (ds : List Char) : List Char :=
  List.replicate (9 - ds.length) '0' ++ ds

/-- Remove trailing `'0'` characters. -/
def dropTrailingZeros (ds : List Char) : List Char :=
  (ds.reverse.dropWhile (fun c => c = '0')).reverse

/-- The exact decimal rendering of the remainder value `rI + nanos / 1e9`
(`0 ≤ rI < 60`, `nanos < 10^9`): the exact fixed-point decimal with
trailing zeros removed, and no point when the value is integral.  Used
only by the specification-side formatter `to_iso8601_spec`. -/
def secChars (rI nanos : ℕ) : List Char :=
  if nanos = 0 then natChars rI
  else natChars rI ++ '.' :: dropTrailingZeros (padNine (natChars nanos))

/-! ## IEEE-754 binary64 (`f64`), embedded exactly

A finite double is `± m * 2^e`.  Canonical finite values produced by the
rounding function have either `m = 0` (the zero, always with positive
sign here), or `2^52 ≤ m < 2^53` (a normal value), or `e = -1074` and
`0 < m < 2^52` (a subnormal).  All operations are the exact rational
operation followed by `f64ofRat`, the correct round-to-nearest-ties-even
rounding, which is how IEEE-754 defines them. -/
inductive F64 where
  | finite (neg : Bool) (m : ℕ) (e : ℤ)
  | inf (neg : Bool)
  | nan
deriving DecidableEq

/-- The number of binary digits of `n` (`0` for `0`), by fuel recursion. -/
def natBitsAux : ℕ → ℕ → ℕ
  | 0, _ => 0
  | fuel + 1, n => if n = 0 then 0 else natBitsAux fuel (n / 2) + 1

/-- Bit length: `2^(natBits n - 1) ≤ n < 2^(natBits n)` for `n ≥ 1`. -/
def natBits (n : ℕ) : ℕ :=
  natBitsAux n n

/-- Round `a / b` (with `b > 0`) to the nearest integer, ties to even. -/
def rndNE (a b : ℕ) : ℕ :=
  let q := a / b
  let r := a % b
  if 2 * r < b then q
  else if b < 2 * r then q + 1
  else if q % 2 = 0 then q else q + 1

/-- Does `2^k ≤ num / den` hold (for `num, den > 0`)? -/
def le2pow (k : ℤ) (num den : ℕ) : Bool :=
  if 0 ≤ k then decide (den * 2 ^ k.toNat ≤ num) else decide (den ≤ num * 2 ^ (-k).toNat)

/-- The binary exponent of `num / den > 0`: the unique `e` with
`2^e ≤ num / den < 2^(e+1)`. -/
def ratLog2 (num den : ℕ) : ℤ :=
  let a : ℤ := natBits num
  let b : ℤ := natBits den
  if le2pow (a - b) num den then a - b else a - b - 1

/-- Correctly round the positive rational `num / den` to binary64:
find the binary exponent, round the significand to 53 bits (nearest,
ties to even), handle the carry to the next binade, overflow to
infinity beyond the largest finite double, and the subnormal range
below `2^-1022` (unit `2^-1074`, underflow to zero). -/
def f64ofRatPos (neg : Bool) (num den : ℕ) : F64 :=
  let e := ratLog2 num den
  if e < -1022 then
    let m := rndNE (num * 2 ^ 1074) den
    if m = 0 then .finite false 0 0
    else if m = 2 ^ 52 then .finite neg (2 ^ 52) (-1074)
    else .finite neg m (-1074)
  else
    let s := e - 52
    let m := if 0 ≤ s then rndNE num (den * 2 ^ s.toNat)
             else rndNE (num * 2 ^ (-s).toNat) den
    if m = 2 ^ 53 then
      if e = 1023 then .inf neg else .finite neg (2 ^ 52) (e - 51)
    else if 1023 < e then .inf neg
    else .finite neg m (e - 52)

/-- Correctly round `± num / den` to binary64 (`f64round`). -/
def f64ofRat (neg : Bool) (num den : ℕ) : F64 :=
  if num = 0 then .finite false 0 0 else f64ofRatPos neg num den

/-- Correctly round the dyadic value `± M * 2^E` to binary64. -/
def f64ofDyadic (neg : Bool) (M : ℕ) (E : ℤ) : F64 :=
  if 0 ≤ E then f64ofRat neg (M * 2 ^ E.toNat) 1
  else f64ofRat neg M (2 ^ (-E).toNat)

/-- The double nearest to a natural number (`n as f64`, exact below
`2^53`). -/
def f64ofNat (n : ℕ) : F64 :=
  f64ofRat false n 1

/-- IEEE-754 addition: the exact sum, correctly rounded; infinities of
opposite sign give NaN, NaN propagates. -/
def fAdd : F64 → F64 → F64
  | .nan, _ => .nan
  | _, .nan => .nan
  | .inf s1, .inf s2 => if s1 = s2 then .inf s1 else .nan
  | .inf s1, .finite _ _ _ => .inf s1
  | .finite _ _ _, .inf s2 => .inf s2
  | .finite n1 m1 e1, .finite n2 m2 e2 =>
    let emin := min e1 e2
    let a : ℤ := (if n1 then -1 else 1) * m1 * 2 ^ (e1 - emin).toNat
    let b : ℤ := (if n2 then -1 else 1) * m2 * 2 ^ (e2 - emin).toNat
    f64ofDyadic (decide (a + b < 0)) (a + b).natAbs emin

/-- IEEE-754 multiplication: the exact product, correctly rounded;
`inf * 0` gives NaN, NaN propagates. -/
def fMul : F64 → F64 → F64
  | .nan, _ => .nan
  | _, .nan => .nan
  | .inf s1, .inf s2 => .inf (xor s1 s2)
  | .inf s1, .finite n2 m2 _ => if m2 = 0 then .nan else .inf (xor s1 n2)
  | .finite n1 m1 _, .inf s2 => if m1 = 0 then .nan else .inf (xor n1 s2)
  | .finite n1 m1 e1, .finite n2 m2 e2 => f64ofDyadic (xor n1 n2) (m1 * m2) (e1 + e2)

/-- IEEE-754 division: the exact quotient, correctly rounded; division by
zero gives an infinity (`0/0` NaN), NaN propagates. -/
def fDiv : F64 → F64 → F64
  | .nan, _ => .nan
  | _, .nan => .nan
  | .inf _, .inf _ => .nan
  | .inf s1, .finite n2 _ _ => .inf (xor s1 n2)
  | .finite _ _ _, .inf _ => .finite false 0 0
  | .finite n1 m1 e1, .finite n2 m2 e2 =>
    if m2 = 0 then (if m1 = 0 then .nan else .inf (xor n1 n2))
    else
      let E := e1 - e2
      if 0 ≤ E then f64ofRat (xor n1 n2) (m1 * 2 ^ E.toNat) m2
      else f64ofRat (xor n1 n2) m1 (m2 * 2 ^ (-E).toNat)

/-- `x == 0.0` (NaN and infinities compare false). -/
def F64.isZero : F64 → Bool
  | .finite _ m _ => decide (m = 0)
  | _ => false

/-- `x < 0.0` (false for NaN; the canonical zero has positive sign). -/
def F64.isNeg : F64 → Bool
  | .finite n _ _ => n
  | .inf n => n
  | .nan => false

/-- `2^64 ≤ x` (false for NaN and negative values, true for `+inf`):
the range check of `Duration::from_secs_f64`. -/
def F64.geTwo64 : F64 → Bool
  | .nan => false
  | .inf n => !n
  | .finite n m e =>
    !n && (if 0 ≤ e then decide (2 ^ 64 ≤ m * 2 ^ e.toNat)
           else decide (2 ^ 64 * 2 ^ (-e).toNat ≤ m))

/-- The `as i64` cast of a double: truncation toward zero, saturating at
the `i64` bounds, `0` for NaN.  In this development it is only applied to
the non-negative `as_secs_f64` of a duration. -/
def f64toI64 : F64 → ℤ
  | .nan => 0
  | .inf n => if n then -(2 ^ 63) else 2 ^ 63 - 1
  | .finite n m e =>
    let t : ℕ := if 0 ≤ e then m * 2 ^ e.toNat else m / 2 ^ (-e).toNat
    if n then (if 2 ^ 63 ≤ t then -(2 ^ 63) else -(t : ℤ))
    else (if 2 ^ 63 - 1 ≤ t then 2 ^ 63 - 1 else (t : ℤ))

/-- `x.rem_euclid(60.0)`: Rust computes `x % 60.0` (the IEEE remainder
with the sign of `x`, which is always exact) and adds `60.0` if negative.
The exact result is representable, so no rounding occurs; `f64ofDyadic`
just renormalizes.  Infinity gives NaN, as `%` does. -/
def remEuclid60 : F64 → F64
  | .nan => .nan
  | .inf _ => .nan
  | .finite n m e =>
    let den : ℕ := if 0 ≤ e then 1 else 2 ^ (-e).toNat
    let num : ℕ := if 0 ≤ e then m * 2 ^ e.toNat else m
    let r := num % (60 * den)
    if n then
      (if r = 0 then .finite false 0 0
       else f64ofDyadic false (60 * den - r) (if 0 ≤ e then 0 else e))
    else f64ofDyadic false r (if 0 ≤ e then 0 else e)

/-- Does `10^k ≤ m * 2^e` hold (for `m > 0`)? -/
def dyGE10pow (m : ℕ) (e k : ℤ) : Bool :=
  let lhs := m * (if 0 ≤ e then 2 ^ e.toNat else 1) * (if k < 0 then 10 ^ (-k).toNat else 1)
  let rhs := (if 0 ≤ k then 10 ^ k.toNat else 1) * (if e < 0 then 2 ^ (-e).toNat else 1)
  decide (rhs ≤ lhs)

/-- Ascend to the largest `j` with `10^j ≤ m * 2^e`, starting at `j`. -/
def floorLog10Up : ℕ → ℤ → ℕ → ℤ → ℤ
  | 0, j, _, _ => j
  | fuel + 1, j, m, e => if dyGE10pow m e (j + 1) then floorLog10Up fuel (j + 1) m e else j

/-- Descend until `10^j ≤ m * 2^e`. -/
def floorLog10Down : ℕ → ℤ → ℕ → ℤ → ℤ
  | 0, j, _, _ => j
  | fuel + 1, j, m, e => if dyGE10pow m e j then j else floorLog10Down fuel (j - 1) m e

/-- The decimal exponent of `m * 2^e > 0`: the unique `d` with
`10^d ≤ m * 2^e < 10^(d+1)`. -/
def floorLog10 (m : ℕ) (e : ℤ) : ℤ :=
  floorLog10Down 2200 (floorLog10Up 400 0 m e) m e

/-- The nearest `k`-significant-digit decimal to `m * 2^e` whose leading
digit sits at decimal position `d10`: `round(m * 2^e * 10^(k-1-d10))`,
ties to even.  The result is in `[10^(k-1), 10^k]`; `10^k` means the
rounding carried into the next decade. -/
def sigDigits (m : ℕ) (e d10 : ℤ) (k : ℕ) : ℕ :=
  let p : ℤ := (k : ℤ) - 1 - d10
  let num := m * (if 0 ≤ e then 2 ^ e.toNat else 1) * (if 0 ≤ p then 10 ^ p.toNat else 1)
  let den := (if e < 0 then 2 ^ (-e).toNat else 1) * (if p < 0 then 10 ^ (-p).toNat else 1)
  rndNE num den

/-- The double nearest to the decimal `D * 10^p` (how `parse::<f64>`
values a digit string, and how a printed decimal reads back). -/
def f64ofDec (D : ℕ) (p : ℤ) : F64 :=
  if 0 ≤ p then f64ofRat false (D * 10 ^ p.toNat) 1
  else f64ofRat false D (10 ^ (-p).toNat)

/-- Search for the shortest decimal significand that parses back to
exactly `m * 2^e`: try `k = 1, 2, ...` significant digits; 17 digits
always round-trip, so the fallback is unreachable.  Returns the digit
value and its decimal exponent (adjusted when rounding carried into the
next decade). -/
def shortestAux (m : ℕ) (e d10 : ℤ) : ℕ → ℕ → ℕ × ℤ
  | 0, _ => (sigDigits m e d10 17, d10)
  | fuel + 1, k =>
    let D := sigDigits m e d10 k
    let Dd : ℕ × ℤ := if D = 10 ^ k then (10 ^ (k - 1), d10 + 1) else (D, d10)
    if f64ofDec Dd.1 (Dd.2 + 1 - k) = F64.finite false m e then Dd
    else shortestAux m e d10 fuel (k + 1)

/-- Lay the significant digits out as Rust's `Display` does: plain
decimal notation, no exponent, no trailing `.0` for integral values. -/
def decLayout (D : ℕ) (d10 : ℤ) : List Char :=
  let ds := natChars D
  let k : ℤ := ds.length
  if k ≤ d10 + 1 then ds ++ List.replicate (d10 + 1 - k).toNat '0'
  else if 1 ≤ d10 + 1 then ds.take (d10 + 1).toNat ++ '.' :: ds.drop (d10 + 1).toNat
  else '0' :: '.' :: (List.replicate (-(d10 + 1)).toNat '0' ++ ds)

/-- Rust's `Display` for `f64`: the shortest decimal that reads back to
the same value (Grisu/Ryu behaviour), in plain decimal layout. -/
def f64Display : F64 → List Char
  | .nan => ['N', 'a', 'N']
  | .inf n => if n then ['-', 'i', 'n', 'f'] else ['i', 'n', 'f']
  | .finite n m e =>
    if m = 0 then ['0']
    else
      let d10 := floorLog10 m e
      let Dd := shortestAux m e d10 17 1
      (if n then ['-'] else []) ++ decLayout Dd.1 Dd.2

/-- `Duration::as_secs_f64`: `self.secs as f64 + self.nanos as f64 / 1e9`,
each operation correctly rounded. -/
def as_secs_f64 (du : Duration) : F64 :=
  fAdd (f64ofNat du.secs) (fDiv (f64ofNat du.nanos) (f64ofNat 1000000000))

/-- `to_iso8601` (src/lib.rs:149), computing exactly as the source does:
`secs = as_secs_f64`, the `secs == 0.0` test, the `secs as i64` cast
(truncating, saturating), the day/hour/minute decomposition of that
integer, `secs.rem_euclid(60.0)` for the remainder, and `Display` for
the remainder's text.  The output is assembled by successive pushes,
i.e. concatenation. -/
def to_iso8601 (du : Duration) : String :=
  let secs := as_secs_f64 du
  if secs.isZero then "PT0S"
  else
    let t : ℕ := (f64toI64 secs).toNat
    let d := t / 86400
    let h := t % 86400 / 3600
    let n := t % 3600 / 60
    let rem := remEuclid60 secs
    String.mk ('P' ::
      ((if d ≠ 0 then natChars d ++ ['D'] else []) ++
       (if h ≠ 0 ∨ n ≠ 0 ∨ rem.isZero = false then ['T'] else []) ++
       (if h ≠ 0 then natChars h ++ ['H'] else []) ++
       (if n ≠ 0 then natChars n ++ ['M'] else []) ++
       (if rem.isZero = false then f64Display rem ++ ['S'] else [])))

/-- Restatement of the formatter following the specification text (§4.2):
zero formats as the literal `"PT0S"`; otherwise decompose total seconds
into days (86400 s), hours (3600 s), minutes (60 s) and a non-negative
fractional-seconds remainder via true modulo 60; emit `P`, the days
component only if non-zero, `T` only if hours, minutes or the seconds
remainder is non-zero, then each remaining component only if non-zero,
never zero-padded.  Used solely to compare with `to_iso8601`. -/
def to_iso8601_spec (du : Duration) : String :=
  if du.secs = 0 ∧ du.nanos = 0 then "PT0S"
  else
    let days := du.secs / 86400
    let hours := du.secs % 86400 / 3600
    let minutes := du.secs % 3600 / 60
    let secsRem := du.secs % 60
    String.mk ('P' ::
      ((if days ≠ 0 then natChars days ++ ['D'] else []) ++
       (if hours ≠ 0 ∨ minutes ≠ 0 ∨ secsRem ≠ 0 ∨ du.nanos ≠ 0 then ['T'] else []) ++
       (if hours ≠ 0 then natChars hours ++ ['H'] else []) ++
       (if minutes ≠ 0 then natChars minutes ++ ['M'] else []) ++
       (if secsRem ≠ 0 ∨ du.nanos ≠ 0 then secChars secsRem du.nanos ++ ['S'] else [])))

/-- A captured `[-+]?[0-9]+` field: the optional sign character and the
non-empty digit run. -/
structure SInt where
  sign : Option Char
  digits : List Char
deriving DecidableEq

/-- The captured seconds component: group 6 (`[-+]?[0-9]+`) and the
optional group 7 (`[0-9]{0,9}` behind `[.,]`, possibly an empty capture). -/
structure SecCap where
  intPart : SInt
  frac : Option (List Char)
deriving DecidableEq

/-- The capture of group 3, `(T ...)`: each inner component is
independently optional.  Its matched text is exactly `"T"` iff all three
are `none`. -/
structure TBlock where
  hours : Option SInt
  minutes : Option SInt
  seconds : Option SecCap
deriving DecidableEq

/-- All captures of the pattern: group 1 (the top-level sign, `none` for
the empty capture), group 2 (days) and group 3 (the `T` block). -/
structure Captures where
  sign : Option Char
  days : Option SInt
  tblock : Option TBlock
deriving DecidableEq

/-- Maximal munch of an ASCII digit run (`[0-9]+`/`[0-9]{0,9}` bodies). -/
def munchDigits : List Char → List Char × List Char
  | [] => ([], [])
  | c :: rest =>
    if c.isDigit then
      let (ds, r) := munchDigits rest
      (c :: ds, r)
    else
      ([], c :: rest)

/-- Match `[-+]?[0-9]+` at the current position.  The greedy sign
alternative needs a digit after the sign; backtracking to the empty sign
cannot succeed there since a sign character is not a digit. -/
def matchSInt (cs : List Char) : Option (SInt × List Char) :=
  match cs with
  | [] => none
  | c :: rest =>
    if c = '-' ∨ c = '+' then
      match munchDigits rest with
      | ([], _) => none
      | (ds, r) => some (⟨some c, ds⟩, r)
    else if c.isDigit then
      match munchDigits (c :: rest) with
      | (ds, r) => some (⟨none, ds⟩, r)
    else none

/-- Match `([-+]?[0-9]+)u` for a unit letter `u` (`D`, `H` or `M`).
If the digits are not followed by `u`, no shorter digit run can be either
(the next character would be a digit), so the whole group fails. -/
def matchUnit (u : Char) (cs : List Char) : Option (SInt × List Char) :=
  match matchSInt cs with
  | none => none
  | some (v, r) =>
    match r with
    | [] => none
    | c :: r2 => if c = u then some (v, r2) else none

/-- Match `([-+]?[0-9]+)(?:[.,]([0-9]{0,9}))?S`.  After `[.,]` the greedy
fraction takes the whole digit run when it has at most 9 digits and `S`
follows; otherwise every backtracking choice leaves a digit (never `S`)
as the next character and the no-fraction alternative sees `[.,]`, so the
whole seconds group fails. -/
def matchSec (cs : List Char) : Option (SecCap × List Char) :=
  match matchSInt cs with
  | none => none
  | some (v, r) =>
    match r with
    | [] => none
    | c :: r2 =>
      if c = '.' ∨ c = ',' then
        match munchDigits r2 with
        | (ds, r3) =>
          if ds.length ≤ 9 then
            match r3 with
            | 'S' :: r4 => some (⟨v, some ds⟩, r4)
            | _ => none
          else none
      else if c = 'S' then some (⟨v, none⟩, r2)
      else none

/-- Run an optional group: on failure the position is unchanged. -/
def optGroup {α : Type} (g : List Char → Option (α × List Char))
    (cs : List Char) : Option α × List Char :=
  match g cs with
  | some (v, r) => (some v, r)
  | none => (none, cs)

/-- Match the `T` block `(T(?:..H)?(?:..M)?(?:..S)?)?` at the current
position. -/
def matchTBlock (cs : List Char) : Option (TBlock × List Char) :=
  match cs with
  | [] => none
  | c :: rest =>
    if c = 'T' then
      let (ho, r1) := optGroup (matchUnit 'H') rest
      let (mo, r2) := optGroup (matchUnit 'M') r1
      let (so, r3) := optGroup matchSec r2
      some (⟨ho, mo, so⟩, r3)
    else none

/-- The part of the pattern after the literal `P`: the optional day group
then the optional `T` block. -/
def matchAfterP (cs : List Char) : Option SInt × Option TBlock :=
  let (d, r1) := optGroup (matchUnit 'D') cs
  let (t, _) := optGroup matchTBlock r1
  (d, t)

/-- Try the whole pattern at one start position: `([-+]?)P...`.  The
greedy sign participates exactly when a sign character is followed by
`P`. -/
def matchAt (cs : List Char) : Option Captures :=
  match cs with
  | [] => none
  | c :: rest =>
    if c = 'P' then
      some ⟨none, (matchAfterP rest).1, (matchAfterP rest).2⟩
    else if c = '-' ∨ c = '+' then
      match rest with
      | [] => none
      | c2 :: rest2 =>
        if c2 = 'P' then
          some ⟨some c, (matchAfterP rest2).1, (matchAfterP rest2).2⟩
        else none
    else none

/-- `Regex::captures`: the leftmost position with a match wins (the Rust
`regex` crate searches start positions from the left). -/
def findCaptures : List Char → Option Captures
  | [] => none
  | c :: rest =>
    match matchAt (c :: rest) with
    | some caps => some caps
    | none => findCaptures rest

/-- The numeric value of a digit character. -/
def digitVal (c : Char) : ℕ := c.toNat - 48

/-- The natural number denoted by a big-endian digit run. -/
def natOfDigits (ds : List Char) : ℕ :=
  ds.foldl (fun a c => 10 * a + digitVal c) 0

/-- Group 7, the fraction capture, if present. -/
def Captures.fracCap (caps : Captures) : Option (List Char) :=
  (caps.tblock.bind TBlock.seconds).bind SecCap.frac

/-- `parse::<f64>` on a captured `[-+]?[0-9]+` field: the exact decimal
value, correctly rounded (overflowing to infinity on huge digit runs —
`parse` never fails on these captures). -/
def parseF64 (v : SInt) : F64 :=
  f64ofRat (decide (v.sign = some '-')) (natOfDigits v.digits) 1

/-- The accumulated `f64` total
`secs_in_d + secs_in_h + secs_in_m + secs_in_s + secs_in_f`
(src/lib.rs:194-221): each field parsed and scaled in `f64`, the
fraction divided by `10^(digit count)`, and the five terms summed left
to right with IEEE rounding at every step.  (For the empty fraction
capture this function is never consulted: `evalCaptures` panics first,
as the source's `unwrap` does.) -/
def capturesTotalF64 (caps : Captures) : F64 :=
  let secs_in_d := match caps.days with
    | some v => fMul (parseF64 v) (f64ofNat 86400)
    | none => F64.finite false 0 0
  let secs_in_h := match caps.tblock.bind TBlock.hours with
    | some v => fMul (parseF64 v) (f64ofNat 3600)
    | none => F64.finite false 0 0
  let secs_in_m := match caps.tblock.bind TBlock.minutes with
    | some v => fMul (parseF64 v) (f64ofNat 60)
    | none => F64.finite false 0 0
  let secs_in_s := match caps.tblock.bind TBlock.seconds with
    | some sc => parseF64 sc.intPart
    | none => F64.finite false 0 0
  let secs_in_f := match caps.fracCap with
    | some ds => fDiv (parseF64 ⟨none, ds⟩) (f64ofNat (10 ^ ds.length))
    | none => F64.finite false 0 0
  fAdd (fAdd (fAdd (fAdd secs_in_d secs_in_h) secs_in_m) secs_in_s) secs_in_f

/-- The outcome of a parser run.  `panic` marks the unrecoverable failures
of the source: `unwrap` on a failed field parse, and the panics of
`Duration::from_secs_f64` on a NaN, negative or out-of-range total. -/
inductive ParseResult where
  | success (du : Duration)
  | failure
  | panic
deriving DecidableEq

/-- `Duration::from_secs_f64`: panics on NaN, infinities, negative values
and values of at least `2^64` seconds; otherwise rounds to the nearest
nanosecond (ties to even), carrying into the seconds on a full carry. -/
def from_secs_f64 : F64 → ParseResult
  | .nan => .panic
  | .inf _ => .panic
  | .finite n m e =>
    if n then .panic
    else if F64.geTwo64 (.finite n m e) then .panic
    else if 0 ≤ e then .success ⟨m * 2 ^ e.toNat, 0⟩
    else
      let den := 2 ^ (-e).toNat
      let secs0 := m / den
      let nanos := rndNE (m % den * 1000000000) den
      if nanos = 1000000000 then .success ⟨secs0 + 1, 0⟩ else .success ⟨secs0, nanos⟩

/-- Evaluate the captures as `from_iso8601` does (src/lib.rs:192-226):
reject when group 3 matched bare `"T"`; read the top-level sign into an
unused `_negate`; a present but empty fraction capture makes
`"".parse::<f64>().unwrap()` panic; otherwise convert the accumulated
`f64` total with `from_secs_f64`. -/
def evalCaptures (caps : Captures) : ParseResult :=
  if caps.tblock = some ⟨none, none, none⟩ then .failure
  else
    let _negate := caps.sign = some '-'
    match caps.fracCap with
    | some [] => .panic
    | _ => from_secs_f64 (capturesTotalF64 caps)

/-- `from_iso8601` (src/lib.rs:187) on the character list of the input. -/
def fromIsoChars (cs : List Char) : ParseResult :=
  match findCaptures cs with
  | some caps => evalCaptures caps
  | none => .failure

/-- `from_iso8601` (src/lib.rs:187). -/
def from_iso8601 (s : String) : ParseResult :=
  fromIsoChars s.data

/-- C7 — the optional constructors return `none` exactly when a bound is
violated. -/
theorem from_hms_opt_none_iff (h m s milli micro nano : ℕ) :
    (from_hms_opt h m s = none ↔ 60 ≤ m ∨ 60 ≤ s) ∧
    (from_hms_milli_opt h m s milli = none ↔ 60 ≤ m ∨ 60 ≤ s ∨ 1000 ≤ milli) ∧
    (from_hms_micro_opt h m s micro = none ↔ 60 ≤ m ∨ 60 ≤ s ∨ 1000000 ≤ micro) ∧
    (from_hms_nano_opt h m s nano = none ↔ 60 ≤ m ∨ 60 ≤ s ∨ 1000000000 ≤ nano) := by
  refine ⟨?_, ?_, ?_, ?_⟩
  all_goals
    simp only [from_hms_opt, from_hms_milli_opt, from_hms_micro_opt, from_hms_nano_opt]
    split <;> simp_all <;> omega

/-- C3 (counterexample) — at `h = 1200000` the `u32` product `h * 3600`
wraps, so the total seconds are not `h * 3600 + m * 60 + s`. -/
theorem from_hms_overflow_counterexample :
    from_hms 1200000 0 0 = some ⟨25032704, 0⟩ ∧
      (25032704 : ℕ) ≠ 1200000 * 3600 + 0 * 60 + 0 := by
  constructor
  · rfl
  · decide

/-- C3 (amended) — for `m, s ∈ [0, 60)` and `h` small enough that
`h * 3600 + m * 60 + s` fits in a `u32`, `from_hms` succeeds with exactly
that many seconds (and zero sub-second nanoseconds). -/
theorem from_hms_secs (h m s : ℕ) (hm : m < 60) (hs : s < 60)
    (hfit : h * 3600 + m * 60 + s < 2 ^ 32) :
    from_hms h m s = some ⟨h * 3600 + m * 60 + s, 0⟩ := by
  unfold from_hms from_hms_opt
  rw [if_pos ⟨hs, hm⟩, Nat.mod_eq_of_lt hfit]

theorem from_hms_secs_witness :
    from_hms 2 30 45 = some ⟨9045, 0⟩ := by
  have := from_hms_secs 2 30 45 (by omega) (by omega) (by norm_num)
  simpa using this

theorem parse_sanity_examples :
    from_iso8601 "PT10S" = .success ⟨10, 0⟩ ∧
    from_iso8601 "PT10.1S" = .success ⟨10, 100000000⟩ ∧
    from_iso8601 "PT" = .failure ∧
    from_iso8601 "" = .failure ∧
    from_iso8601 "P12T5S" = .success ⟨0, 0⟩ ∧
    from_iso8601 "PT1,5S" = .success ⟨1, 500000000⟩ ∧
    from_iso8601 "PT1.1234567890S" = .failure := by
  refine ⟨by decide, by decide, by decide, by decide, by decide, by decide, by decide⟩

/-- C8 — the three quoted parses. -/
theorem from_iso8601_examples :
    from_iso8601 "PT0S" = .success ⟨0, 0⟩ ∧
    from_iso8601 "PT1M40S" = .success ⟨100, 0⟩ ∧
    from_iso8601 "P11DT13H46M40S" = .success ⟨1000000, 0⟩ := by
  refine ⟨by decide, by decide, by decide⟩

/-- C2 (counterexample) — `from_iso8601` does escalate to an unrecoverable
failure: `"PT-1S"` matches with seconds field `-1`, and
`Duration::from_secs_f64(-1.0)` panics; `"PT1.S"` captures an empty
fraction, and `"".parse::<f64>().unwrap()` panics. -/
theorem from_iso8601_panics :
    from_iso8601 "PT-1S" = .panic ∧ from_iso8601 "PT1.S" = .panic := by
  refine ⟨by decide, by decide⟩

/-- A third panic family: an in-range exact total can still panic after
`f64` rounding — `18446744073709551615.6` rounds to exactly `2^64`
seconds, which `from_secs_f64` rejects. -/
theorem from_iso8601_panic_after_rounding :
    from_iso8601 "PT18446744073709551615.6S" = .panic := by
  decide

theorem from_secs_f64_ne_failure (x : F64) : from_secs_f64 x ≠ .failure := by
  cases x with
  | nan => simp [from_secs_f64]
  | inf n => simp [from_secs_f64]
  | finite n m e =>
    simp only [from_secs_f64]
    split_ifs <;> simp

theorem from_secs_f64_panic_cases (x : F64) (hp : from_secs_f64 x = .panic) :
    x = F64.nan ∨ x.isNeg = true ∨ x.geTwo64 = true := by
  cases x with
  | nan => exact Or.inl rfl
  | inf n => cases n <;> simp [F64.isNeg, F64.geTwo64]
  | finite n m e =>
    cases n with
    | true => simp [F64.isNeg]
    | false =>
      by_cases hg : F64.geTwo64 (.finite false m e) = true
      · exact Or.inr (Or.inr hg)
      · exfalso
        simp only [from_secs_f64] at hp
        rw [if_neg (by simp), if_neg hg] at hp
        split_ifs at hp

/-- C2 (amended) — a panic can only arise from a matching input whose
captured fraction is the empty string (a failed numeric conversion), or
whose `f64`-accumulated total is NaN (infinities of opposite sign),
negative, or at least `2^64` seconds; every other input is surfaced as a
present or absent result. -/
theorem from_iso8601_panic_cases (s : String) (hp : from_iso8601 s = .panic) :
    ∃ caps, findCaptures s.data = some caps ∧
      (caps.fracCap = some [] ∨ capturesTotalF64 caps = F64.nan ∨
        (capturesTotalF64 caps).isNeg = true ∨
        (capturesTotalF64 caps).geTwo64 = true) := by
  rcases hf : findCaptures s.data with _ | caps
  · exfalso
    unfold from_iso8601 fromIsoChars at hp
    rw [hf] at hp
    simp at hp
  · have hp2 : evalCaptures caps = .panic := by
      unfold from_iso8601 fromIsoChars at hp
      rw [hf] at hp
      simpa using hp
    refine ⟨caps, rfl, ?_⟩
    by_cases ht : caps.tblock = some ⟨none, none, none⟩
    · rw [evalCaptures, if_pos ht] at hp2
      exact absurd hp2 (by simp)
    · rw [evalCaptures, if_neg ht] at hp2
      rcases hfc : caps.fracCap with _ | ⟨_ | ⟨c, ds⟩⟩
      · rw [hfc] at hp2
        have hp3 : from_secs_f64 (capturesTotalF64 caps) = .panic := by simpa using hp2
        rcases from_secs_f64_panic_cases _ hp3 with h | h | h
        · exact Or.inr (Or.inl h)
        · exact Or.inr (Or.inr (Or.inl h))
        · exact Or.inr (Or.inr (Or.inr h))
      · exact Or.inl rfl
      · rw [hfc] at hp2
        have hp3 : from_secs_f64 (capturesTotalF64 caps) = .panic := by simpa using hp2
        rcases from_secs_f64_panic_cases _ hp3 with h | h | h
        · exact Or.inr (Or.inl h)
        · exact Or.inr (Or.inr (Or.inl h))
        · exact Or.inr (Or.inr (Or.inr h))

theorem from_iso8601_panic_cases_witness :
    ∃ caps, findCaptures "PT-1S".data = some caps ∧
      (caps.fracCap = some [] ∨ capturesTotalF64 caps = F64.nan ∨
        (capturesTotalF64 caps).isNeg = true ∨
        (capturesTotalF64 caps).geTwo64 = true) :=
  from_iso8601_panic_cases "PT-1S" (by decide)

/-- C5 (counterexample) — `"P3DT"` matches the pattern with the day
marker present (`days` captured as `3`) and the `T` marker present with
no sub-components, and `from_iso8601` still returns the absent result,
contradicting the claim that a present `D` component prevents failure. -/
theorem from_iso8601_empty_t_counterexample :
    findCaptures "P3DT".data =
      some ⟨none, some ⟨none, ['3']⟩, some ⟨none, none, none⟩⟩ ∧
    from_iso8601 "P3DT" = .failure := by
  refine ⟨by decide, by decide⟩

/-- C5 (amended) — `from_iso8601` returns the absent result exactly when
the pattern does not match at all, or the captured `T` block is the bare
`"T"` marker with no sub-components following it — regardless of whether
a day component is present. -/
theorem from_iso8601_failure_iff (s : String) :
    from_iso8601 s = .failure ↔
      (findCaptures s.data = none ∨
        ∃ caps, findCaptures s.data = some caps ∧
          caps.tblock = some ⟨none, none, none⟩) := by
  unfold from_iso8601 fromIsoChars
  rcases hf : findCaptures s.data with _ | caps
  · simp
  · simp only [Option.some.injEq, reduceCtorEq, false_or]
    by_cases ht : caps.tblock = some ⟨none, none, none⟩
    · rw [evalCaptures, if_pos ht]
      simp only [true_iff]
      exact ⟨caps, rfl, ht⟩
    · rw [evalCaptures, if_neg ht]
      constructor
      · intro hp
        exfalso
        rcases hfc : caps.fracCap with _ | ⟨_ | ⟨c, ds⟩⟩
        · rw [hfc] at hp
          exact absurd hp (from_secs_f64_ne_failure _)
        · rw [hfc] at hp
          exact absurd hp (by simp)
        · rw [hfc] at hp
          exact absurd hp (from_secs_f64_ne_failure _)
      · rintro ⟨caps2, hc2, ht2⟩
        exact absurd ht2 (hc2 ▸ ht)

/-- The deserialization outcome the direct-field adapter reports to the
host framework. -/
inductive DeResult where
  | ok (du : Duration)
  | invalidValue (unexpected expected : String)
  | panic
deriving DecidableEq

/-- `deserialize` (src/direct_serde.rs:15), after the host framework has
delivered the text value: a parse failure becomes the typed
`Error::invalid_value(Unexpected::Str(&value), &"PdDThHmMsS")`; a parser
panic propagates. -/
def direct_serde.deserialize (value : String) : DeResult :=
  match from_iso8601 value with
  | .success du => .ok du
  | .failure => .invalidValue value "PdDThHmMsS"
  | .panic => .panic

/-- C9 — whenever `from_iso8601` rejects the delivered text, the adapter
fails with the typed invalid-value error carrying the offending text and
the expected-pattern description `"PdDThHmMsS"`. -/
theorem deserialize_invalid_value (v : String) (hv : from_iso8601 v = .failure) :
    direct_serde.deserialize v = .invalidValue v "PdDThHmMsS" := by
  unfold direct_serde.deserialize
  rw [hv]

theorem deserialize_invalid_value_witness :
    direct_serde.deserialize "xyz" = .invalidValue "xyz" "PdDThHmMsS" :=
  deserialize_invalid_value "xyz" (by decide)

theorem data_append (a b : String) : (a ++ b).data = a.data ++ b.data := by
  cases a; cases b; rfl

/-- Prepending a sign character never changes the parse: either the input
starts with `P`, in which case the sign is captured into group 1, which the
evaluation only reads into the unused `_negate`; or the match is found
further right, unmoved. -/
theorem fromIsoChars_cons_sign (c : Char) (hc : c = '-' ∨ c = '+')
    (cs : List Char) : fromIsoChars (c :: cs) = fromIsoChars cs := by
  cases cs with
  | nil => rcases hc with h | h <;> subst h <;> rfl
  | cons c2 rest =>
    by_cases h2 : c2 = 'P'
    · subst h2
      rcases hc with h | h <;> subst h <;> rfl
    · have hm : matchAt (c :: c2 :: rest) = none := by
        rcases hc with h | h <;> subst h <;> simp [matchAt, h2]
      show (match findCaptures (c :: c2 :: rest) with
            | some caps => evalCaptures caps
            | none => ParseResult.failure) = fromIsoChars (c2 :: rest)
      rw [findCaptures, hm]
      rfl

/-- C6 — a leading `-` or `+` on an accepted input has no effect: the
same duration is returned, and negation is never applied. -/
theorem from_iso8601_leading_sign (s : String) (du : Duration)
    (h : from_iso8601 s = .success du) :
    from_iso8601 ("-" ++ s) = .success du ∧
    from_iso8601 ("+" ++ s) = .success du := by
  constructor
  · show fromIsoChars ("-" ++ s).data = _
    rw [data_append]
    show fromIsoChars ('-' :: s.data) = _
    rw [fromIsoChars_cons_sign '-' (Or.inl rfl) s.data]
    exact h
  · show fromIsoChars ("+" ++ s).data = _
    rw [data_append]
    show fromIsoChars ('+' :: s.data) = _
    rw [fromIsoChars_cons_sign '+' (Or.inr rfl) s.data]
    exact h

theorem from_iso8601_leading_sign_witness :
    from_iso8601 ("-" ++ "PT1S") = .success ⟨1, 0⟩ ∧
    from_iso8601 ("+" ++ "PT1S") = .success ⟨1, 0⟩ :=
  from_iso8601_leading_sign "PT1S" ⟨1, 0⟩ (by decide)

theorem fromIsoChars_cons_of_matchAt_none (a : Char) (L : List Char)
    (h : matchAt (a :: L) = none) : fromIsoChars (a :: L) = fromIsoChars L := by
  show (match findCaptures (a :: L) with
        | some caps => evalCaptures caps
        | none => ParseResult.failure) = fromIsoChars L
  rw [findCaptures, h]
  rfl

theorem fromIsoChars_pt1s (post : List Char) :
    fromIsoChars ('P' :: 'T' :: '1' :: 'S' :: post) = .success ⟨1, 0⟩ := by
  unfold fromIsoChars
  rw [show findCaptures ('P' :: 'T' :: '1' :: 'S' :: post) =
      some ⟨none, none, some ⟨none, none, some ⟨⟨none, ['1']⟩, none⟩⟩⟩ from rfl]
  exact (by decide :
    evalCaptures ⟨none, none, some ⟨none, none, some ⟨⟨none, ['1']⟩, none⟩⟩⟩ =
      ParseResult.success ⟨1, 0⟩)

/-- The evaluation only reads the captured top-level sign into the unused
`_negate`, so it cannot influence the result. -/
theorem evalCaptures_sign (sgn sgn2 : Option Char) (d : Option SInt)
    (t : Option TBlock) : evalCaptures ⟨sgn, d, t⟩ = evalCaptures ⟨sgn2, d, t⟩ := rfl

theorem fromIsoChars_sign_pt1s (c : Char) (hc : c = '-' ∨ c = '+')
    (post : List Char) :
    fromIsoChars (c :: 'P' :: 'T' :: '1' :: 'S' :: post) = .success ⟨1, 0⟩ := by
  unfold fromIsoChars
  rw [show findCaptures (c :: 'P' :: 'T' :: '1' :: 'S' :: post) =
      some ⟨some c, none, some ⟨none, none, some ⟨⟨none, ['1']⟩, none⟩⟩⟩ from by
    rcases hc with rfl | rfl <;> rfl]
  show evalCaptures ⟨some c, none, some ⟨none, none, some ⟨⟨none, ['1']⟩, none⟩⟩⟩ =
    ParseResult.success ⟨1, 0⟩
  rw [evalCaptures_sign (some c) none]
  exact (by decide :
    evalCaptures ⟨none, none, some ⟨none, none, some ⟨⟨none, ['1']⟩, none⟩⟩⟩ =
      ParseResult.success ⟨1, 0⟩)

/-- The pattern is unanchored: any text before a `P` that cannot begin a
match, and anything after the matched `"PT1S"`, is ignored. -/
theorem fromIsoChars_embedded_pt1s (pre post : List Char) (hp : 'P' ∉ pre) :
    fromIsoChars (pre ++ 'P' :: 'T' :: '1' :: 'S' :: post) = .success ⟨1, 0⟩ := by
  induction pre with
  | nil => exact fromIsoChars_pt1s post
  | cons a pre ih =>
    have ha : a ≠ 'P' := fun h => hp (by simp [h])
    have hp2 : 'P' ∉ pre := fun h => hp (by simp [h])
    by_cases hs : a = '-' ∨ a = '+'
    · cases pre with
      | nil => exact fromIsoChars_sign_pt1s a hs post
      | cons b pre2 =>
        have hb : b ≠ 'P' := fun h => hp2 (by simp [h])
        have hm : matchAt (a :: (b :: pre2 ++ 'P' :: 'T' :: '1' :: 'S' :: post)) =
            none := by
          rcases hs with rfl | rfl <;> simp [matchAt, hb]
        rw [List.cons_append, fromIsoChars_cons_of_matchAt_none a _ hm]
        exact ih hp2
    · have hm : matchAt (a :: (pre ++ 'P' :: 'T' :: '1' :: 'S' :: post)) = none := by
        simp [matchAt, ha, hs]
      rw [List.cons_append, fromIsoChars_cons_of_matchAt_none a _ hm]
      exact ih hp2

/-- The pattern matches somewhere in `cs` iff `cs` contains a `P` (all of
the pattern except the literal `P` is optional). -/
theorem findCaptures_isSome_iff (cs : List Char) :
    (findCaptures cs).isSome = true ↔ 'P' ∈ cs := by
  induction cs with
  | nil => simp [findCaptures]
  | cons c rest ih =>
    by_cases hc : c = 'P'
    · subst hc
      simp [findCaptures, matchAt]
    · by_cases hs : c = '-' ∨ c = '+'
      · cases rest with
        | nil => rcases hs with rfl | rfl <;> simp [findCaptures, matchAt]
        | cons c2 rest2 =>
          by_cases h2 : c2 = 'P'
          · subst h2
            rcases hs with rfl | rfl <;> simp [findCaptures, matchAt]
          · have hm : matchAt (c :: c2 :: rest2) = none := by
              rcases hs with rfl | rfl <;> simp [matchAt, h2]
            rw [findCaptures, hm]
            rw [ih]
            constructor
            · exact fun h => List.mem_cons_of_mem c h
            · exact fun h => (List.mem_cons.mp h).resolve_left fun he => hc he.symm
      · have hm : matchAt (c :: rest) = none := by simp [matchAt, hc, hs]
        rw [findCaptures, hm]
        rw [ih]
        constructor
        · exact fun h => List.mem_cons_of_mem c h
        · exact fun h => (List.mem_cons.mp h).resolve_left fun he => hc he.symm

/-- C10 (counterexample) — containing a matching substring does not imply
acceptance: the pattern matches `"PT"` (and hence matches inside `"xPT"`),
yet `from_iso8601 "xPT"` is the absent result; and `"PTPT1S"`, which has
text before a `P` and contains the accepted substring `"PT1S"`, is also
rejected, because the leftmost match `"PT"` has a bare `T` block. -/
theorem from_iso8601_containment_counterexample :
    (findCaptures "PT".data).isSome = true ∧
    from_iso8601 "xPT" = .failure ∧
    from_iso8601 "PT1S" = .success ⟨1, 0⟩ ∧
    from_iso8601 "PTPT1S" = .failure := by
  refine ⟨by decide, by decide, by decide, by decide⟩

/-- C10 (amended) — matching is unanchored, but what is parsed is the
leftmost match, and acceptance is not guaranteed by containment alone:
any `P`-free prefix and arbitrary suffix around `"PT1S"` still parse to
one second, the quoted `"xPT1Sgarbage"` parses to one second, the bare
`"P"` parses to the zero duration, and the pattern matches iff the input
contains a `P` at all. -/
theorem from_iso8601_unanchored :
    (∀ pre post : String, 'P' ∉ pre.data →
      from_iso8601 (pre ++ "PT1S" ++ post) = .success ⟨1, 0⟩) ∧
    from_iso8601 "xPT1Sgarbage" = .success ⟨1, 0⟩ ∧
    from_iso8601 "P" = .success ⟨0, 0⟩ ∧
    (∀ s : String, (findCaptures s.data).isSome = true ↔ 'P' ∈ s.data) := by
  refine ⟨?_, by decide, by decide, fun s => findCaptures_isSome_iff s.data⟩
  intro pre post hp
  show fromIsoChars (pre ++ "PT1S" ++ post).data = ParseResult.success ⟨1, 0⟩
  rw [data_append, data_append, List.append_assoc]
  exact fromIsoChars_embedded_pt1s pre.data post.data hp

theorem from_iso8601_unanchored_witness :
    from_iso8601 ("x" ++ "PT1S" ++ "garbage") = .success ⟨1, 0⟩ :=
  from_iso8601_unanchored.1 "x" "garbage" (by decide)

/-- C1 (counterexample) — the round trip fails at the whole-second
duration `2^53 + 1` s: `as_secs_f64` already rounds it to `2^53` (ties to
even), so the formatter emits the decomposition of `2^53` and parsing
returns `2^53` s, not the original duration. -/
theorem from_to_iso8601_not_roundtrip :
    to_iso8601 ⟨9007199254740993, 0⟩ = "P104249991374DT7H36M32S" ∧
    from_iso8601 (to_iso8601 ⟨9007199254740993, 0⟩) =
      .success ⟨9007199254740992, 0⟩ ∧
    (⟨9007199254740992, 0⟩ : Duration) ≠ ⟨9007199254740993, 0⟩ := by
  refine ⟨by decide, by decide, by decide⟩

/-- C1 (amended) — the round trip is exact for representative
whole-second durations: verified across the magnitudes the repository's
tests exercise and up to the last exactly-representable odd second count
`2^53 - 1`, the range in which the `f64` pipeline is exact. -/
theorem from_to_iso8601_roundtrip_reps :
    from_iso8601 (to_iso8601 ⟨0, 0⟩) = .success ⟨0, 0⟩ ∧
    from_iso8601 (to_iso8601 ⟨1, 0⟩) = .success ⟨1, 0⟩ ∧
    from_iso8601 (to_iso8601 ⟨10, 0⟩) = .success ⟨10, 0⟩ ∧
    from_iso8601 (to_iso8601 ⟨100, 0⟩) = .success ⟨100, 0⟩ ∧
    from_iso8601 (to_iso8601 ⟨10000, 0⟩) = .success ⟨10000, 0⟩ ∧
    from_iso8601 (to_iso8601 ⟨1000000, 0⟩) = .success ⟨1000000, 0⟩ ∧
    from_iso8601 (to_iso8601 ⟨86400, 0⟩) = .success ⟨86400, 0⟩ ∧
    from_iso8601 (to_iso8601 ⟨9007199254740991, 0⟩) =
      .success ⟨9007199254740991, 0⟩ := by
  refine ⟨by decide, by decide, by decide, by decide, by decide, by decide,
    by decide, by decide⟩

/-- C4 (counterexample) — the formatter does not realize the clean
modulo-60 decomposition: for `Duration(100 s, 100000000 ns)` the `f64`
remainder is not the nearest double to `40.1`, and Rust prints
`"PT1M40.099999999999994S"` where the specification's decomposition
gives `"PT1M40.1S"`; and at `2^53 + 1` whole seconds the formatter emits
the decomposition of `2^53` (seconds remainder 32, not 33). -/
theorem to_iso8601_rounding_counterexample :
    to_iso8601 ⟨100, 100000000⟩ = "PT1M40.099999999999994S" ∧
    to_iso8601_spec ⟨100, 100000000⟩ = "PT1M40.1S" ∧
    to_iso8601 ⟨100, 100000000⟩ ≠ to_iso8601_spec ⟨100, 100000000⟩ ∧
    to_iso8601 ⟨9007199254740993, 0⟩ ≠ to_iso8601_spec ⟨9007199254740993, 0⟩ := by
  refine ⟨by decide, by decide, by decide, by decide⟩

/-- C4 (amended) — the formatter produces `"PT0S"` for zero and the five
quoted examples, and agrees with the specification's clean decomposition
on the representative durations whose `f64` pipeline is exact. -/
theorem to_iso8601_spec_and_examples :
    to_iso8601 ⟨0, 0⟩ = "PT0S" ∧
    to_iso8601 ⟨10, 0⟩ = "PT10S" ∧
    to_iso8601 ⟨10, 100000000⟩ = "PT10.1S" ∧
    to_iso8601 ⟨100, 0⟩ = "PT1M40S" ∧
    to_iso8601 ⟨10000, 0⟩ = "PT2H46M40S" ∧
    to_iso8601 ⟨1000000, 0⟩ = "P11DT13H46M40S" ∧
    to_iso8601 ⟨1, 0⟩ = to_iso8601_spec ⟨1, 0⟩ ∧
    to_iso8601 ⟨10, 0⟩ = to_iso8601_spec ⟨10, 0⟩ ∧
    to_iso8601 ⟨10, 100000000⟩ = to_iso8601_spec ⟨10, 100000000⟩ ∧
    to_iso8601 ⟨100, 0⟩ = to_iso8601_spec ⟨100, 0⟩ ∧
    to_iso8601 ⟨10000, 0⟩ = to_iso8601_spec ⟨10000, 0⟩ ∧
    to_iso8601 ⟨1000000, 0⟩ = to_iso8601_spec ⟨1000000, 0⟩ ∧
    to_iso8601 ⟨86400, 0⟩ = to_iso8601_spec ⟨86400, 0⟩ ∧
    to_iso8601 ⟨9007199254740991, 0⟩ = to_iso8601_spec ⟨9007199254740991, 0⟩ := by
  refine ⟨by decide, by decide, by decide, by decide, by decide, by decide,
    by decide, by decide, by decide, by decide, by decide, by decide,
    by decide, by decide⟩
